import Mathlib

/-!
Verification of the employee CRUD service layer
(`app/services/employee_service.py` plus the route mapping in
`app/routes/employee_routes.py` and the unique-index setup in `app/db.py`).

Modelling conventions:
* A MongoDB collection is a list of stored documents in natural (insertion)
  order, together with a counter supplying fresh `_id` values.
* `ObjectId` values are modelled as natural numbers; `str(_id)` is the
  decimal rendering.
* `salary` (a Python float / BSON double) is modelled as an exact rational;
  the aggregation arithmetic is treated exactly.
* Python `datetime.date` / `datetime.datetime` values are modelled by
  `PyDate` / `PyDateTime` below.  `datetime.fromisoformat` is modelled on
  the pre-3.11 grammar `YYYY-MM-DD[*HH[:MM[:SS]]]` (fractional seconds and
  timezone suffixes are outside the modelled fragment and parse to `none`,
  i.e. count as a raised `ValueError`).
* The `$regex`/`$options: "i"` filter used by the case-insensitive skill
  search is modelled by a small PCRE fragment: literal characters, `.`,
  and the quantifiers `*`, `+`, `?`; PCRE's `$`-matches-before-a-final-
  newline behaviour and ASCII case folding are modelled.  Skill strings
  using other metacharacters are outside the modelled fragment.
-/

/-! ### Dates: the Python `date` / `datetime` values handled by the codec -/

/-- A Python `datetime.date` value (fields as in CPython). -/
structure PyDate where
  year : Nat
  month : Nat
  day : Nat
  deriving DecidableEq, Repr

/-- A Python `datetime.datetime` value (microseconds and tzinfo elided:
no reachable value carries them). -/
structure PyDateTime where
  year : Nat
  month : Nat
  day : Nat
  hour : Nat
  minute : Nat
  second : Nat
  deriving DecidableEq, Repr

/-- `datetime.date(...)` of a `datetime` value: drop the time of day. -/
def PyDateTime.date (dt : PyDateTime) : PyDate :=
  ⟨dt.year, dt.month, dt.day⟩

/-- `datetime.combine(value, time.min)`: midnight of the given date. -/
def PyDate.midnight (d : PyDate) : PyDateTime :=
  ⟨d.year, d.month, d.day, 0, 0, 0⟩

def isLeapYear (y : Nat) : Bool :=
  y % 4 == 0 && (y % 100 != 0 || y % 400 == 0)

def daysInMonth (y m : Nat) : Nat :=
  if m == 2 then (if isLeapYear y then 29 else 28)
  else if m == 4 || m == 6 || m == 9 || m == 11 then 30
  else 31

/-- The constraints CPython's `datetime.date` constructor enforces
(`MINYEAR = 1`, `MAXYEAR = 9999`). -/
def PyDate.valid (d : PyDate) : Prop :=
  1 ≤ d.year ∧ d.year ≤ 9999 ∧ 1 ≤ d.month ∧ d.month ≤ 12 ∧
    1 ≤ d.day ∧ d.day ≤ daysInMonth d.year d.month

instance (d : PyDate) : Decidable d.valid := by
  unfold PyDate.valid; infer_instance

/-! ### `date.isoformat` and `datetime.fromisoformat` -/

/-- The ASCII digit character for `n % 10`. -/
def digitChar (n : Nat) : Char := Char.ofNat (48 + n % 10)

/-- Two-digit zero-padded decimal rendering (`%02d` for values below 100). -/
def pad2 (n : Nat) : List Char := [digitChar (n / 10), digitChar n]

/-- Four-digit zero-padded decimal rendering (`%04d` for values below 10000). -/
def pad4 (n : Nat) : List Char :=
  [digitChar (n / 1000), digitChar (n / 100), digitChar (n / 10), digitChar n]

/-- `date.isoformat()`: the `YYYY-MM-DD` rendering. -/
def PyDate.isoformat (d : PyDate) : String :=
  String.mk (pad4 d.year ++ '-' :: pad2 d.month ++ '-' :: pad2 d.day)

def parseDigit (c : Char) : Option Nat :=
  if 48 ≤ c.toNat && c.toNat ≤ 57 then some (c.toNat - 48) else none

def parse2 (a b : Char) : Option Nat :=
  match parseDigit a, parseDigit b with
  | some x, some y => some (10 * x + y)
  | _, _ => none

def parse4 (a b c d : Char) : Option Nat :=
  match parse2 a b, parse2 c d with
  | some x, some y => some (100 * x + y)
  | _, _ => none

/-- Parse the ten characters `YYYY-MM-DD`, with the range checks the
CPython `date` constructor performs. -/
def parseDateChars : List Char → Option PyDate
  | [y1, y2, y3, y4, s1, m1, m2, s2, d1, d2] =>
    if s1 == '-' && s2 == '-' then
      match parse4 y1 y2 y3 y4, parse2 m1 m2, parse2 d1 d2 with
      | some y, some mo, some dd =>
        if 1 ≤ y && y ≤ 9999 && 1 ≤ mo && mo ≤ 12 && 1 ≤ dd && dd ≤ daysInMonth y mo
        then some ⟨y, mo, dd⟩ else none
      | _, _, _ => none
    else none
  | _ => none

/-- Parse `HH`, `HH:MM` or `HH:MM:SS` with the `time` range checks. -/
def parseTimeChars : List Char → Option (Nat × Nat × Nat)
  | [h1, h2] =>
    match parse2 h1 h2 with
    | some hh => if hh ≤ 23 then some (hh, 0, 0) else none
    | none => none
  | [h1, h2, c1, m1, m2] =>
    if c1 == ':' then
      match parse2 h1 h2, parse2 m1 m2 with
      | some hh, some mm => if hh ≤ 23 && mm ≤ 59 then some (hh, mm, 0) else none
      | _, _ => none
    else none
  | [h1, h2, c1, m1, m2, c2, s1, s2] =>
    if c1 == ':' && c2 == ':' then
      match parse2 h1 h2, parse2 m1 m2, parse2 s1 s2 with
      | some hh, some mm, some ss =>
        if hh ≤ 23 && mm ≤ 59 && ss ≤ 59 then some (hh, mm, ss) else none
      | _, _, _ => none
    else none
  | _ => none

/-- `datetime.fromisoformat` (pre-3.11 grammar): the first ten characters
are the date, an arbitrary separator character may follow, then the time.
`none` models a raised `ValueError`. -/
def fromisoformat (s : String) : Option PyDateTime :=
  let cs := s.data
  match parseDateChars (cs.take 10) with
  | none => none
  | some d =>
    match cs.drop 10 with
    | [] => some d.midnight
    | _ :: rest =>
      match parseTimeChars rest with
      | some (hh, mm, ss) => some ⟨d.year, d.month, d.day, hh, mm, ss⟩
      | none => none

/-! ### The codec helpers of `employee_service.py` -/

/-- The runtime type of a `joining_date` value reaching `_ensure_datetime`
(the source inspects it with `isinstance`). -/
inductive JDInput where
  | fromDatetime (dt : PyDateTime)
  | fromDate (d : PyDate)
  | fromString (s : String)
  deriving DecidableEq, Repr

/-- `_ensure_datetime`: convert a date / ISO string to a datetime (at
midnight for date input) for Mongo ISODate storage.  `none` models the
`ValueError` raised on a malformed string. -/
def _ensure_datetime : JDInput → Option PyDateTime
  | JDInput.fromDatetime dt => some dt
  | JDInput.fromDate d => some d.midnight
  | JDInput.fromString s => fromisoformat s

/-! ### The store: documents, collection state -/

/-- A stored employee document.  `oid` is the storage-assigned `_id`. -/
structure StoredEmployee where
  oid : Nat
  employee_id : String
  name : String
  department : String
  salary : Rat
  joining_date : Option PyDateTime
  skills : List String
  deriving DecidableEq, Repr

/-- The `employees` collection: documents in natural (insertion) order,
plus the next fresh `_id`. -/
structure Store where
  docs : List StoredEmployee
  nextOid : Nat
  deriving DecidableEq, Repr

/-- The API response record produced by `employee_helper`. -/
structure EmployeeOut where
  id : String
  employee_id : String
  name : String
  department : String
  salary : Rat
  joining_date : Option String
  skills : List String
  deriving DecidableEq, Repr

/-- `employee_helper`: serialize a stored document for an API response.
Stored `joining_date` values are datetimes, so the source's
`jd.date().isoformat()` branch applies when the value is present and the
`else: jd_str = None` branch when it is absent. -/
def employee_helper (e : StoredEmployee) : EmployeeOut :=
  { id := toString e.oid
    employee_id := e.employee_id
    name := e.name
    department := e.department
    salary := e.salary
    joining_date := e.joining_date.map (fun dt => dt.date.isoformat)
    skills := e.skills }

example : PyDate.isoformat ⟨2023, 1, 15⟩ = "2023-01-15" := by decide
example : fromisoformat "2023-01-15" = some ⟨2023, 1, 15, 0, 0, 0⟩ := by decide
example : fromisoformat "2023-01-15T10:30:05" = some ⟨2023, 1, 15, 10, 30, 5⟩ := by decide
example : fromisoformat "2023-13-15" = none := by decide
example : fromisoformat "2023-02-29" = none := by decide
example : fromisoformat "2024-02-29" = some ⟨2024, 2, 29, 0, 0, 0⟩ := by decide

/-! ### Request payloads (the pydantic models of `app/models/employee.py`,
as the routes deliver them to the service) -/

/-- `EmployeeCreate` after pydantic validation: all fields required,
`joining_date` a date-only value. -/
structure EmployeeCreate where
  employee_id : String
  name : String
  department : String
  salary : Rat
  joining_date : PyDate
  skills : List String
  deriving DecidableEq, Repr

/-- `EmployeeUpdate.dict(exclude_unset=True)` as seen by the service:
per field, `none` stands for absent-or-null (both are dropped by
`_prepare_updates`, whose filter keeps only non-`None` values). -/
structure UpdateFields where
  name : Option String
  department : Option String
  salary : Option Rat
  joining_date : Option PyDate
  skills : Option (List String)
  deriving DecidableEq, Repr

/-- The `$set` document produced by `_prepare_updates`. -/
structure UpdateDoc where
  name : Option String
  department : Option String
  salary : Option Rat
  joining_date : Option PyDateTime
  skills : Option (List String)
  deriving DecidableEq, Repr

/-- `if not update_doc:` — the prepared update mapping is empty. -/
def UpdateDoc.isEmpty (u : UpdateDoc) : Bool :=
  u.name.isNone && u.department.isNone && u.salary.isNone &&
    u.joining_date.isNone && u.skills.isNone

/-- `_prepare_updates`: drop `None` values, then normalize `joining_date`
via `_ensure_datetime` (here always a date-only value, which never
raises). -/
def _prepare_updates (u : UpdateFields) : UpdateDoc :=
  { name := u.name
    department := u.department
    salary := u.salary
    joining_date := u.joining_date.bind (fun d => _ensure_datetime (JDInput.fromDate d))
    skills := u.skills }

/-- `_prepare_doc_for_insert` on an `EmployeeCreate` payload, together
with the `_id` the storage engine assigns at insert time. -/
def _prepare_doc_for_insert (p : EmployeeCreate) (oid : Nat) : StoredEmployee :=
  { oid := oid
    employee_id := p.employee_id
    name := p.name
    department := p.department
    salary := p.salary
    joining_date := _ensure_datetime (JDInput.fromDate p.joining_date)
    skills := p.skills }

/-! ### Mongo query semantics used by the service -/

/-- `update_one({... }, {"$set": update_doc})` on one matched document:
set exactly the fields present in the update document (`_id` and
`employee_id` are not in it, hence untouched). -/
def applyUpdate (ud : UpdateDoc) (e : StoredEmployee) : StoredEmployee :=
  { e with
    name := ud.name.getD e.name
    department := ud.department.getD e.department
    salary := ud.salary.getD e.salary
    joining_date := match ud.joining_date with
      | some dt => some dt
      | none => e.joining_date
    skills := ud.skills.getD e.skills }

/-- `update_one` matches at most one document: the first one in natural
order whose `employee_id` equals the key. -/
def setFirstMatch (eid : String) (ud : UpdateDoc) : List StoredEmployee → List StoredEmployee
  | [] => []
  | e :: es =>
    if e.employee_id == eid then applyUpdate ud e :: es
    else e :: setFirstMatch eid ud es

/-- Sort key for `.sort("joining_date", -1)`: BSON datetimes compare as
timestamps, which on in-range values is the lexicographic order of the
fields; a missing value sorts below every present one. -/
def jdRank : Option PyDateTime → Nat
  | none => 0
  | some dt =>
    ((((dt.year * 13 + dt.month) * 32 + dt.day) * 24 + dt.hour) * 60 + dt.minute) * 60
      + dt.second + 1

/-- The descending `joining_date` order used by the list/search cursors. -/
def jdGE (a b : StoredEmployee) : Prop :=
  jdRank b.joining_date ≤ jdRank a.joining_date

instance : DecidableRel jdGE := fun _ _ => Nat.decLe _ _

instance : IsTotal StoredEmployee jdGE :=
  ⟨fun a b => Nat.le_total (jdRank b.joining_date) (jdRank a.joining_date)⟩

instance : IsTrans StoredEmployee jdGE :=
  ⟨fun _ _ _ hab hbc => Nat.le_trans hbc hab⟩

/-- A cursor sorted by `joining_date` descending (stable on ties, the
tie order among equal keys being unspecified by the storage engine). -/
def sortDocs (docs : List StoredEmployee) : List StoredEmployee :=
  List.insertionSort jdGE docs

/-- `.limit(n)` semantics: `0` means no limit. -/
def applyLimit (limit : Nat) (l : List α) : List α :=
  if limit = 0 then l else l.take limit

/-- `.skip(skip).limit(limit)` on a cursor. -/
def paginate (skip limit : Nat) (l : List α) : List α :=
  applyLimit limit (l.drop skip)

/-! ### The service operations -/

/-- Outcome of `create_employee`: `duplicateKey` models the raised
`DuplicateKeyError`; on success the source re-reads by `_id` and
serializes (`employee_helper` maps a failed re-read, `None`, to `None`). -/
inductive CreateResult where
  | duplicateKey
  | ok (r : Option EmployeeOut)
  deriving DecidableEq, Repr

/-- `create_employee`: insert (the unique index on `employee_id` rejects
a duplicate atomically, leaving the store unchanged), then re-read the
inserted document by `_id` and serialize it. -/
def create_employee (st : Store) (p : EmployeeCreate) : CreateResult × Store :=
  let doc := _prepare_doc_for_insert p st.nextOid
  if st.docs.any (fun e => e.employee_id == p.employee_id) then
    (CreateResult.duplicateKey, st)
  else
    let st1 : Store := ⟨st.docs ++ [doc], st.nextOid + 1⟩
    (CreateResult.ok ((st1.docs.find? (fun e => e.oid == st.nextOid)).map employee_helper), st1)

/-- `get_employee_by_id`: `find_one({"employee_id": eid})`. -/
def get_employee_by_id (st : Store) (eid : String) : Option EmployeeOut :=
  (st.docs.find? (fun e => e.employee_id == eid)).map employee_helper

/-- Outcome of `update_employee`: `notFound` models the `None` return
(no match, or — kept for faithfulness — a failed re-read serialized to
`None`), `noUpdateFields` the `{"no_update_fields": True}` marker. -/
inductive UpdateResult where
  | notFound
  | noUpdateFields
  | ok (r : EmployeeOut)
  deriving DecidableEq, Repr

/-- `update_employee`: prepare the `$set` document; empty means
`no_update_fields` (checked before any storage operation); otherwise
`update_one` on the first match, then re-read and serialize. -/
def update_employee (st : Store) (eid : String) (u : UpdateFields) : UpdateResult × Store :=
  let ud := _prepare_updates u
  if ud.isEmpty then (UpdateResult.noUpdateFields, st)
  else if st.docs.any (fun e => e.employee_id == eid) then
    let st1 : Store := ⟨setFirstMatch eid ud st.docs, st.nextOid⟩
    match st1.docs.find? (fun e => e.employee_id == eid) with
    | some doc => (UpdateResult.ok (employee_helper doc), st1)
    | none => (UpdateResult.notFound, st1)
  else (UpdateResult.notFound, st)

/-- `delete_employee`: `delete_one` removes the first match; the result
is `deleted_count == 1`. -/
def delete_employee (st : Store) (eid : String) : Bool × Store :=
  if st.docs.any (fun e => e.employee_id == eid) then
    (true, ⟨st.docs.eraseP (fun e => e.employee_id == eid), st.nextOid⟩)
  else (false, st)

/-- The query filter of `list_employees`: `if department:` — Python
truthiness, so `None` and the empty string both mean "no filter". -/
def deptFilter (department : Option String) (e : StoredEmployee) : Bool :=
  match department with
  | none => true
  | some d => if d == "" then true else e.department == d

/-- `list_employees`: filter by department (if truthy), sort by
`joining_date` descending, paginate, serialize. -/
def list_employees (st : Store) (department : Option String) (skip limit : Nat) :
    List EmployeeOut :=
  (paginate skip limit (sortDocs (st.docs.filter (deptFilter department)))).map employee_helper

/-! ### The aggregation pipeline -/

/-- One element of the `average_salary_by_department` response:
`{"department": ..., "avg_salary": ...}` (the `$round ... 0` value is
integral). -/
structure AvgOut where
  department : String
  avg_salary : Int
  deriving DecidableEq, Repr

/-- Floor of a rational, as used by the rounding below. -/
def ratFloor (q : Rat) : Int := Int.fdiv q.num q.den

/-- Mongo's `$round` with 0 decimal places: round half to even. -/
def roundHalfEven (q : Rat) : Int :=
  let f := ratFloor q
  let r : Rat := q - (f : Rat)
  if r < 1 / 2 then f
  else if 1 / 2 < r then f + 1
  else if f % 2 = 0 then f else f + 1

/-- The salaries of one department group. -/
def deptSalaries (st : Store) (dep : String) : List Rat :=
  (st.docs.filter (fun e => e.department == dep)).map (fun e => e.salary)

/-- `$avg` over a group (groups arising from `$group` are never empty). -/
def ratAvg (l : List Rat) : Rat := l.sum / (l.length : Rat)

/-- Lexicographic comparison of character lists by codepoint, which on
ASCII data agrees with Mongo's UTF-8 byte-order string comparison. -/
def strLeb : List Char → List Char → Bool
  | [], _ => true
  | _ :: _, [] => false
  | a :: as, b :: bs =>
    if a.toNat < b.toNat then true
    else if b.toNat < a.toNat then false
    else strLeb as bs

/-- The ascending `department` order of the `$sort` stage. -/
def strLE (a b : String) : Prop := strLeb a.data b.data = true

instance : DecidableRel strLE := fun _ _ => instDecidableEqBool _ _

theorem strLeb_total : ∀ as bs, strLeb as bs = true ∨ strLeb bs as = true
  | [], _ => Or.inl rfl
  | _ :: _, [] => Or.inr rfl
  | a :: as, b :: bs => by
    simp only [strLeb]
    rcases Nat.lt_trichotomy a.toNat b.toNat with h | h | h
    · simp [h]
    · simpa [h, Nat.lt_irrefl] using strLeb_total as bs
    · simp [h, Nat.lt_asymm h]

theorem strLeb_trans : ∀ as bs cs, strLeb as bs = true → strLeb bs cs = true →
    strLeb as cs = true
  | [], _, _, _, _ => rfl
  | a :: as, [], cs, hab, _ => by simp [strLeb] at hab
  | a :: as, b :: bs, [], _, hbc => by simp [strLeb] at hbc
  | a :: as, b :: bs, c :: cs, hab, hbc => by
    simp only [strLeb] at hab hbc ⊢
    split_ifs at hab hbc ⊢ <;>
      first
        | rfl
        | exact strLeb_trans as bs cs hab hbc
        | (exfalso; omega)

instance : IsTotal String strLE := ⟨fun a b => strLeb_total a.data b.data⟩

instance : IsTrans String strLE :=
  ⟨fun a b c hab hbc => strLeb_trans a.data b.data c.data hab hbc⟩

/-- `average_salary_by_department`: `$group` by `department` with `$avg`
of `salary`, `$project` with `$round` to 0 places, `$sort` ascending by
department.  `$group` emits one document per distinct key, accumulating
over exactly the documents of that key; its output order is unspecified
and the `$sort` stage determines the final order. -/
def average_salary_by_department (st : Store) : List AvgOut :=
  (List.insertionSort strLE ((st.docs.map (fun e => e.department)).dedup)).map
    (fun dep => ⟨dep, roundHalfEven (ratAvg (deptSalaries st dep))⟩)

/-! ### The case-insensitive skill regex (`^skill$`, options `i`) -/

/-- Regex metacharacters: a skill string containing one of these does not
read as a literal inside the interpolated pattern. -/
def isMeta (c : Char) : Bool :=
  c == '.' || c == '^' || c == '$' || c == '*' || c == '+' || c == '?' ||
    c == '(' || c == ')' || c == '[' || c == ']' ||
    c == '{' || c == '}' || c == '|' || c == '\\'

inductive RAtom where
  | lit (c : Char)
  | dot
  deriving DecidableEq, Repr

inductive RPiece where
  | once (a : RAtom)
  | opt (a : RAtom)
  | star (a : RAtom)
  | plus (a : RAtom)
  deriving DecidableEq, Repr

/-- Atom match under the `i` option (ASCII case folding; `.` does not
match a newline absent the `s` option). -/
def atomMatch : RAtom → Char → Bool
  | RAtom.lit c, x => c.toLower == x.toLower
  | RAtom.dot, x => !(x == '\n')

/-- Whether a piece sequence matches a full character list (the pattern is
anchored on both sides).  Quantifiers are interpreted denotationally: a
starred atom may consume any prefix of matching characters. -/
def piecesMatch : List RPiece → List Char → Bool
  | [], cs => cs.isEmpty
  | RPiece.once a :: ps, cs =>
    match cs with
    | [] => false
    | x :: xs => atomMatch a x && piecesMatch ps xs
  | RPiece.opt a :: ps, cs =>
    piecesMatch ps cs ||
      (match cs with
       | [] => false
       | x :: xs => atomMatch a x && piecesMatch ps xs)
  | RPiece.star a :: ps, cs =>
    (List.range (cs.length + 1)).any
      (fun n => (cs.take n).all (fun c => atomMatch a c) && piecesMatch ps (cs.drop n))
  | RPiece.plus a :: ps, cs =>
    (List.range (cs.length + 1)).any
      (fun n => decide (1 ≤ n) && (cs.take n).all (fun c => atomMatch a c) &&
        piecesMatch ps (cs.drop n))

/-- `^pieces$` against a subject: PCRE's `$` (no `m` option) also matches
just before a newline that ends the subject. -/
def anchoredCIMatch (ps : List RPiece) (subject : List Char) : Bool :=
  piecesMatch ps subject ||
    (subject.getLast? == some '\n' && piecesMatch ps subject.dropLast)

/-- A single non-quantifier pattern character as an atom: `.` is the
wildcard, other metacharacters are outside the modelled fragment. -/
def atomOf (c : Char) : Option RAtom :=
  if c == '.' then some RAtom.dot
  else if isMeta c then none
  else some (RAtom.lit c)

/-- Compile the (reversed) interpolated skill string into (reversed)
pattern pieces: a quantifier character applies to the atom to its left.
`none` means the pattern uses regex features outside the modelled
fragment (grouping, classes, alternation, escapes) or is a PCRE compile
error (a dangling quantifier). -/
def compileRev : List Char → Option (List RPiece)
  | [] => some []
  | c :: cs =>
    if c == '*' || c == '+' || c == '?' then
      match cs with
      | [] => none
      | x :: rest =>
        match atomOf x with
        | none => none
        | some a =>
          (compileRev rest).map (fun ps =>
            (if c == '*' then RPiece.star a
             else if c == '+' then RPiece.plus a
             else RPiece.opt a) :: ps)
    else
      match atomOf c with
      | none => none
      | some a => (compileRev cs).map (fun ps => RPiece.once a :: ps)

/-- Compile the interpolated skill string into pattern pieces. -/
def compileSkill (cs : List Char) : Option (List RPiece) :=
  (compileRev cs.reverse).map List.reverse

/-- `search_employees_by_skill`.  The case-sensitive branch is
`find({"skills": skill})`: array containment under string equality.  The
case-insensitive branch filters with
`{"skills": {"$elemMatch": {"$regex": "^skill$", "$options": "i"}}}`;
`none` means the interpolated pattern falls outside the modelled regex
fragment. -/
def search_employees_by_skill (st : Store) (skill : String) (skip limit : Nat)
    (case_insensitive : Bool) : Option (List EmployeeOut) :=
  if case_insensitive then
    match compileSkill skill.data with
    | none => none
    | some ps =>
      some ((paginate skip limit (sortDocs (st.docs.filter
        (fun e => e.skills.any (fun s => anchoredCIMatch ps s.data))))).map employee_helper)
  else
    some ((paginate skip limit (sortDocs (st.docs.filter
      (fun e => e.skills.contains skill)))).map employee_helper)

/-! ### The route layer's outcome mapping (`PUT /employees/...`) -/

/-- The HTTP outcomes of the update route. -/
inductive UpdateResponse where
  | ok200 (r : EmployeeOut)
  | notFound404
  | badRequest400
  deriving DecidableEq, Repr

/-- The update route: `None` becomes 404, the `no_update_fields` marker
becomes 400, otherwise the record is returned with 200. -/
def route_update (st : Store) (eid : String) (u : UpdateFields) : UpdateResponse × Store :=
  let (res, st1) := update_employee st eid u
  match res with
  | UpdateResult.notFound => (UpdateResponse.notFound404, st1)
  | UpdateResult.noUpdateFields => (UpdateResponse.badRequest400, st1)
  | UpdateResult.ok r => (UpdateResponse.ok200 r, st1)

/-! ### Spec-side predicates (phrased from the specification's wording) -/

/-- "contains an element equal to `s` up to case": whole-element
case-insensitive (ASCII) equality. -/
def ciWholeMatch (skill elem : String) : Bool :=
  elem.data.map Char.toLower == skill.data.map Char.toLower

/-- Whole-element case-insensitive equality, also accepting one trailing
newline on the element (the unavoidable PCRE `$` caveat). -/
def ciWholeMatchNL (skill elem : String) : Bool :=
  ciWholeMatch skill elem ||
    (elem.data.getLast? == some '\n' &&
      elem.data.dropLast.map Char.toLower == skill.data.map Char.toLower)

/-- A stored datetime with zero time-of-day component. -/
def isMidnight (dt : PyDateTime) : Prop :=
  dt.hour = 0 ∧ dt.minute = 0 ∧ dt.second = 0

/-- Every stored `joining_date` is a timestamp at midnight. -/
def MidnightInv (st : Store) : Prop :=
  ∀ e ∈ st.docs, ∀ dt, e.joining_date = some dt → isMidnight dt

/-- Well-formedness of the `_id` counter: every stored `_id` is below the
next fresh one (true of every store reachable from an empty one). -/
def StoreWF (st : Store) : Prop :=
  ∀ e ∈ st.docs, e.oid < st.nextOid

/-! ### Concrete fixtures -/

/-- A concrete stored datetime (midnight of 2023-01-`day`). -/
def exDT (day : Nat) : PyDateTime := ⟨2023, 1, day, 0, 0, 0⟩

/-- A concrete stored document. -/
def exEmp (oid : Nat) (eid dep : String) (sal : Rat) (day : Nat)
    (sk : List String) : StoredEmployee :=
  ⟨oid, eid, "N", dep, sal, some (exDT day), sk⟩

/-- The aggregation example: departments A (100, 200) and B (300). -/
def exStoreAgg : Store :=
  ⟨[exEmp 1 "E1" "A" 100 1 [], exEmp 2 "E2" "A" 200 2 [], exEmp 3 "E3" "B" 300 3 []], 4⟩

/-- The pagination example: three records with distinct joining dates,
inserted out of date order. -/
def exStorePag : Store :=
  ⟨[exEmp 1 "E1" "D" 100 3 [], exEmp 2 "E2" "D" 100 1 [], exEmp 3 "E3" "D" 100 2 []], 4⟩

/-- One document whose only skill is the two-letter string `aa`. -/
def exStoreRegex : Store := ⟨[exEmp 1 "E1" "D" 100 1 ["aa"]], 2⟩

/-- A store holding a single document with business key `E1`. -/
def exStoreOne : Store := ⟨[exEmp 1 "E1" "D" 100 1 ["Go"]], 2⟩

/-- A concrete create payload with business key `E1`. -/
def exPayload : EmployeeCreate := ⟨"E1", "John", "Eng", 75000, ⟨2023, 1, 15⟩, ["Python"]⟩

/-- A second create payload with the same business key, different fields. -/
def exPayload2 : EmployeeCreate := ⟨"E1", "Jane", "Ops", 50000, ⟨2024, 6, 1⟩, []⟩

/-- An update supplying only the `name` field. -/
def exUpdName : UpdateFields := ⟨some "Renamed", none, none, none, none⟩

/-- An update supplying no field at all (every value absent or null). -/
def exUpdNone : UpdateFields := ⟨none, none, none, none, none⟩

/-! ### Digit and date-string round-trip lemmas -/

theorem parseDigit_digitChar (n : Nat) : parseDigit (digitChar n) = some (n % 10) := by
  have h : n % 10 < 10 := Nat.mod_lt _ (by omega)
  unfold digitChar
  generalize hk : n % 10 = k at *
  interval_cases k <;> decide

theorem parse2_pad (n : Nat) (h : n < 100) :
    parse2 (digitChar (n / 10)) (digitChar n) = some n := by
  simp only [parse2, parseDigit_digitChar]
  congr 1
  omega

theorem parse4_pad (n : Nat) (h : n < 10000) :
    parse4 (digitChar (n / 1000)) (digitChar (n / 100)) (digitChar (n / 10))
      (digitChar n) = some n := by
  simp only [parse4, parse2, parseDigit_digitChar]
  congr 1
  omega

theorem daysInMonth_le (y m : Nat) : daysInMonth y m ≤ 31 := by
  unfold daysInMonth
  split <;> try split
  all_goals omega

theorem fromisoformat_isoformat (d : PyDate) (h : d.valid) :
    fromisoformat d.isoformat = some d.midnight := by
  obtain ⟨h1, h2, h3, h4, h5, h6⟩ := h
  have hdm : d.day < 100 := by
    have := daysInMonth_le d.year d.month
    omega
  unfold fromisoformat PyDate.isoformat
  simp only [pad4, pad2, List.cons_append, List.nil_append]
  rw [List.take_of_length_le (by simp), List.drop_eq_nil_of_le (by simp)]
  simp only [parseDateChars]
  rw [parse4_pad _ (by omega), parse2_pad _ (by omega), parse2_pad _ (by omega)]
  simp only [beq_self_eq_true, Bool.and_self, if_true]
  have hcond : (decide (1 ≤ d.year) && decide (d.year ≤ 9999) && decide (1 ≤ d.month) &&
      decide (d.month ≤ 12) && decide (1 ≤ d.day) &&
      decide (d.day ≤ daysInMonth d.year d.month)) = true := by
    simp [h1, h2, h3, h4, h5, h6]
  rw [if_pos hcond]

/-- C2: for every valid calendar date, encoding it (as a date value or as
its ISO-8601 date string) to the stored timestamp-at-midnight and decoding
back through `employee_helper` yields the original `YYYY-MM-DD` string;
decoding an absent `joining_date` yields null. -/
theorem joining_date_roundtrip :
    (∀ d : PyDate, d.valid → ∀ e : StoredEmployee,
      _ensure_datetime (JDInput.fromDate d) = some d.midnight
      ∧ _ensure_datetime (JDInput.fromString d.isoformat) = some d.midnight
      ∧ (e.joining_date = some d.midnight →
          (employee_helper e).joining_date = some d.isoformat))
    ∧ (∀ e : StoredEmployee, e.joining_date = none →
        (employee_helper e).joining_date = none) := by
  constructor
  · intro d hd e
    refine ⟨rfl, fromisoformat_isoformat d hd, fun hjd => ?_⟩
    simp [employee_helper, hjd, PyDate.midnight, PyDateTime.date]
  · intro e hjd
    simp [employee_helper, hjd]

/-- Witness for C2 at the concrete date 2023-01-15. -/
theorem joining_date_roundtrip_witness :
    _ensure_datetime (JDInput.fromDate ⟨2023, 1, 15⟩) = some (PyDate.midnight ⟨2023, 1, 15⟩)
    ∧ _ensure_datetime (JDInput.fromString (PyDate.isoformat ⟨2023, 1, 15⟩))
        = some (PyDate.midnight ⟨2023, 1, 15⟩)
    ∧ (employee_helper (exEmp 1 "E1" "D" 100 15 ["Go"])).joining_date
        = some (PyDate.isoformat ⟨2023, 1, 15⟩) := by
  have h := joining_date_roundtrip.1 ⟨2023, 1, 15⟩ (by decide) (exEmp 1 "E1" "D" 100 15 ["Go"])
  exact ⟨h.1, h.2.1, h.2.2 (by decide)⟩

/-! ### Midnight-invariant helper lemmas -/

theorem ensure_date_midnight (d : PyDate) :
    _ensure_datetime (JDInput.fromDate d) = some d.midnight ∧ isMidnight d.midnight :=
  ⟨rfl, rfl, rfl, rfl⟩

theorem fromisoformat_len10 (s : String) (hlen : s.data.length = 10) :
    fromisoformat s = (parseDateChars s.data).map PyDate.midnight := by
  have hd : List.drop 10 s.data = [] := List.drop_eq_nil_of_le (by omega)
  have ht : List.take 10 s.data = s.data := List.take_of_length_le (by omega)
  simp only [fromisoformat, ht, hd]
  cases parseDateChars s.data <;> rfl

theorem ensure_string10_midnight (s : String) (hlen : s.data.length = 10)
    (dt : PyDateTime) (h : _ensure_datetime (JDInput.fromString s) = some dt) :
    isMidnight dt := by
  have h' : fromisoformat s = some dt := h
  rw [fromisoformat_len10 s hlen] at h'
  cases hp : parseDateChars s.data with
  | none => rw [hp] at h'; cases h'
  | some d =>
    rw [hp] at h'
    cases h'
    exact ⟨rfl, rfl, rfl⟩

theorem prepare_updates_jd_midnight (u : UpdateFields) (dt : PyDateTime)
    (h : (_prepare_updates u).joining_date = some dt) : isMidnight dt := by
  simp only [_prepare_updates] at h
  cases hu : u.joining_date with
  | none => rw [hu] at h; cases h
  | some d =>
    rw [hu] at h
    simp only [Option.some_bind, _ensure_datetime, Option.some.injEq] at h
    subst h
    exact ⟨rfl, rfl, rfl⟩

theorem midnight_setFirstMatch (eid : String) (ud : UpdateDoc)
    (hud : ∀ dt, ud.joining_date = some dt → isMidnight dt) :
    ∀ l : List StoredEmployee,
      (∀ e ∈ l, ∀ dt, e.joining_date = some dt → isMidnight dt) →
      ∀ e ∈ setFirstMatch eid ud l, ∀ dt, e.joining_date = some dt → isMidnight dt := by
  intro l
  induction l with
  | nil => intro _ e he; cases he
  | cons x xs ih =>
    intro h e he
    rw [setFirstMatch] at he
    split at he
    · rcases List.mem_cons.mp he with rfl | hmem
      · intro dt hdt
        simp only [applyUpdate] at hdt
        cases hj : ud.joining_date with
        | some j => rw [hj] at hdt; cases hdt; exact hud _ hj
        | none => rw [hj] at hdt; exact h x (List.mem_cons_self _ _) dt hdt
      · exact h e (List.mem_cons_of_mem _ hmem)
    · rcases List.mem_cons.mp he with rfl | hmem
      · exact h e (List.mem_cons_self _ _)
      · exact ih (fun e' he' => h e' (List.mem_cons_of_mem _ he')) e hmem

theorem midnightInv_create (st : Store) (p : EmployeeCreate) (h : MidnightInv st) :
    MidnightInv (create_employee st p).2 := by
  unfold create_employee
  split
  · exact h
  · intro e he dt hdt
    rcases List.mem_append.mp he with h1 | h1
    · exact h e h1 dt hdt
    · rcases List.mem_singleton.mp h1 with rfl
      simp only [_prepare_doc_for_insert, _ensure_datetime, Option.some.injEq] at hdt
      subst hdt
      exact ⟨rfl, rfl, rfl⟩

theorem midnightInv_update (st : Store) (eid : String) (u : UpdateFields)
    (h : MidnightInv st) : MidnightInv (update_employee st eid u).2 := by
  cases hE : (_prepare_updates u).isEmpty with
  | true => simpa [update_employee, hE] using h
  | false =>
    cases hA : st.docs.any (fun e => e.employee_id == eid) with
    | false => simpa [update_employee, hE, hA] using h
    | true =>
      have hinv : MidnightInv ⟨setFirstMatch eid (_prepare_updates u) st.docs, st.nextOid⟩ :=
        midnight_setFirstMatch eid (_prepare_updates u)
          (prepare_updates_jd_midnight u) st.docs h
      cases hf : List.find? (fun e => e.employee_id == eid)
          (setFirstMatch eid (_prepare_updates u) st.docs) with
      | none => simpa [update_employee, hE, hA, hf] using hinv
      | some doc => simpa [update_employee, hE, hA, hf] using hinv

theorem midnightInv_delete (st : Store) (eid : String) (h : MidnightInv st) :
    MidnightInv (delete_employee st eid).2 := by
  unfold delete_employee
  split
  · intro e he
    exact h e ((List.eraseP_sublist _).subset he)
  · exact h

/-- C8: every accepted `joining_date` input — a date-only value or a
ten-character ISO-8601 date string — is encoded by `_ensure_datetime` to a
timestamp at midnight, and the all-stored-timestamps-at-midnight invariant
is preserved by create, update and delete. -/
theorem joining_date_midnight_invariant :
    (∀ d : PyDate,
      _ensure_datetime (JDInput.fromDate d) = some d.midnight ∧ isMidnight d.midnight)
    ∧ (∀ s : String, s.data.length = 10 → ∀ dt,
        _ensure_datetime (JDInput.fromString s) = some dt → isMidnight dt)
    ∧ (∀ st p, MidnightInv st → MidnightInv (create_employee st p).2)
    ∧ (∀ st eid u, MidnightInv st → MidnightInv (update_employee st eid u).2)
    ∧ (∀ st eid, MidnightInv st → MidnightInv (delete_employee st eid).2) :=
  ⟨ensure_date_midnight, ensure_string10_midnight, midnightInv_create,
    midnightInv_update, midnightInv_delete⟩

/-- Witness for C8: the string `2023-01-15` encodes to a midnight
timestamp, and the invariant holds after creating into the empty store. -/
theorem joining_date_midnight_invariant_witness :
    isMidnight ⟨2023, 1, 15, 0, 0, 0⟩
    ∧ MidnightInv (create_employee ⟨[], 0⟩ exPayload).2 := by
  constructor
  · exact joining_date_midnight_invariant.2.1 "2023-01-15" (by decide)
      ⟨2023, 1, 15, 0, 0, 0⟩ (by decide)
  · exact joining_date_midnight_invariant.2.2.1 ⟨[], 0⟩ exPayload
      (fun e he => absurd he (List.not_mem_nil e))

/-! ### First-match lemmas for `update_one` semantics -/

theorem find?_append_first {α : Type} (p : α → Bool) (pre rest : List α)
    (h : ∀ x ∈ pre, p x = false) : (pre ++ rest).find? p = rest.find? p := by
  induction pre with
  | nil => rfl
  | cons a l ih =>
    rw [List.cons_append, List.find?_cons_of_neg _ (by simp [h a (List.mem_cons_self _ _)])]
    exact ih (fun x hx => h x (List.mem_cons_of_mem _ hx))

theorem first_match_decomp (eid : String) (ud : UpdateDoc) :
    ∀ l : List StoredEmployee, l.any (fun e => e.employee_id == eid) = true →
      ∃ pre e0 post,
        l = pre ++ e0 :: post
        ∧ (∀ x ∈ pre, (x.employee_id == eid) = false)
        ∧ (e0.employee_id == eid) = true
        ∧ setFirstMatch eid ud l = pre ++ applyUpdate ud e0 :: post := by
  intro l
  induction l with
  | nil => intro h; cases h
  | cons x xs ih =>
    intro h
    cases hx : x.employee_id == eid with
    | true =>
      refine ⟨[], x, xs, rfl, ?_, hx, ?_⟩
      · intro y hy; cases hy
      · simp [setFirstMatch, hx]
    | false =>
      have hxs : xs.any (fun e => e.employee_id == eid) = true := by
        simpa [List.any_cons, hx] using h
      obtain ⟨pre, e0, post, hl, hpre, he0, hset⟩ := ih hxs
      refine ⟨x :: pre, e0, post, by rw [hl]; rfl, ?_, he0, ?_⟩
      · intro y hy
        rcases List.mem_cons.mp hy with rfl | hy'
        · exact hx
        · exact hpre y hy'
      · simp [setFirstMatch, hx, hset]

theorem update_employee_found (st : Store) (eid : String) (u : UpdateFields)
    (hE : (_prepare_updates u).isEmpty = false)
    (hA : st.docs.any (fun e => e.employee_id == eid) = true) :
    ∃ pre e0 post,
      st.docs = pre ++ e0 :: post
      ∧ (∀ x ∈ pre, (x.employee_id == eid) = false)
      ∧ (e0.employee_id == eid) = true
      ∧ update_employee st eid u =
          (UpdateResult.ok (employee_helper (applyUpdate (_prepare_updates u) e0)),
            ⟨pre ++ applyUpdate (_prepare_updates u) e0 :: post, st.nextOid⟩) := by
  obtain ⟨pre, e0, post, hl, hpre, he0, hset⟩ :=
    first_match_decomp eid (_prepare_updates u) st.docs hA
  refine ⟨pre, e0, post, hl, hpre, he0, ?_⟩
  have hid : ((applyUpdate (_prepare_updates u) e0).employee_id == eid) = true := he0
  have hpre' : List.find? (fun e => e.employee_id == eid) pre = none :=
    List.find?_eq_none.mpr (fun x hx => by simp [hpre x hx])
  have hcons : List.find? (fun e => e.employee_id == eid)
      (applyUpdate (_prepare_updates u) e0 :: post) =
      some (applyUpdate (_prepare_updates u) e0) := by
    simp [List.find?, hid]
  simp [update_employee, hE, hA, hset, hpre', hcons]

/-- C1: for every key and partial-field mapping, the update route yields
exactly one of three outcomes — 400 exactly when the effective field set
is empty (never a silent success), 404 exactly when fields remain but no
document matches, and the updated record exactly when fields remain and a
document matches. -/
theorem update_outcome_trichotomy :
    ∀ (st : Store) (eid : String) (u : UpdateFields),
      ((route_update st eid u).1 = UpdateResponse.badRequest400 ↔
        (_prepare_updates u).isEmpty = true)
      ∧ ((route_update st eid u).1 = UpdateResponse.notFound404 ↔
        (_prepare_updates u).isEmpty = false ∧
          st.docs.any (fun e => e.employee_id == eid) = false)
      ∧ ((∃ r, (route_update st eid u).1 = UpdateResponse.ok200 r) ↔
        (_prepare_updates u).isEmpty = false ∧
          st.docs.any (fun e => e.employee_id == eid) = true) := by
  intro st eid u
  cases hE : (_prepare_updates u).isEmpty with
  | true => simp [route_update, update_employee, hE]
  | false =>
    cases hA : st.docs.any (fun e => e.employee_id == eid) with
    | false => simp [route_update, update_employee, hE, hA]
    | true =>
      obtain ⟨pre, e0, post, hl, hpre, he0, heq⟩ := update_employee_found st eid u hE hA
      simp [route_update, heq, hA]

/-- Witness for C1: an all-absent update on a store that does not even
contain the key is answered 400, not 404. -/
theorem update_outcome_trichotomy_witness :
    (route_update ⟨[], 5⟩ "EX" exUpdNone).1 = UpdateResponse.badRequest400 :=
  ((update_outcome_trichotomy ⟨[], 5⟩ "EX" exUpdNone).1).mpr (by decide)

/-- C9: an empty effective field set short-circuits the update before any
storage operation: the `NoFieldsProvided` outcome is returned with the
store unchanged, whether or not the key exists. -/
theorem update_empty_fields_short_circuit (st : Store) (eid : String) (u : UpdateFields)
    (h : (_prepare_updates u).isEmpty = true) :
    update_employee st eid u = (UpdateResult.noUpdateFields, st)
    ∧ route_update st eid u = (UpdateResponse.badRequest400, st) := by
  constructor
  · simp [update_employee, h]
  · simp [route_update, update_employee, h]

/-- Witness for C9 on a store with no matching document: the empty-update
outcome takes precedence over `NotFound` and the store is unchanged. -/
theorem update_empty_fields_short_circuit_witness :
    update_employee ⟨[], 5⟩ "EX" exUpdNone = (UpdateResult.noUpdateFields, ⟨[], 5⟩)
    ∧ route_update ⟨[], 5⟩ "EX" exUpdNone = (UpdateResponse.badRequest400, ⟨[], 5⟩) :=
  update_empty_fields_short_circuit ⟨[], 5⟩ "EX" exUpdNone (by decide)

/-- C6: a successful partial update rewrites exactly the first matching
document by setting exactly the supplied fields: every unsupplied field —
and always `employee_id` and the storage identifier — keeps its previous
value, and every other document is untouched. -/
theorem update_frame_preservation (st : Store) (eid : String) (u : UpdateFields)
    (out : EmployeeOut) (st2 : Store)
    (h : update_employee st eid u = (UpdateResult.ok out, st2)) :
    ∃ pre e0 post,
      st.docs = pre ++ e0 :: post
      ∧ (e0.employee_id == eid) = true
      ∧ st2.docs = pre ++ applyUpdate (_prepare_updates u) e0 :: post
      ∧ st2.nextOid = st.nextOid
      ∧ out = employee_helper (applyUpdate (_prepare_updates u) e0)
      ∧ (applyUpdate (_prepare_updates u) e0).employee_id = e0.employee_id
      ∧ (applyUpdate (_prepare_updates u) e0).oid = e0.oid
      ∧ (u.name = none → (applyUpdate (_prepare_updates u) e0).name = e0.name)
      ∧ (u.department = none →
          (applyUpdate (_prepare_updates u) e0).department = e0.department)
      ∧ (u.salary = none → (applyUpdate (_prepare_updates u) e0).salary = e0.salary)
      ∧ (u.joining_date = none →
          (applyUpdate (_prepare_updates u) e0).joining_date = e0.joining_date)
      ∧ (u.skills = none → (applyUpdate (_prepare_updates u) e0).skills = e0.skills) := by
  cases hE : (_prepare_updates u).isEmpty with
  | true => simp [update_employee, hE] at h
  | false =>
    cases hA : st.docs.any (fun e => e.employee_id == eid) with
    | false => simp [update_employee, hE, hA] at h
    | true =>
      obtain ⟨pre, e0, post, hl, hpre, he0, heq⟩ := update_employee_found st eid u hE hA
      rw [heq] at h
      simp only [Prod.mk.injEq, UpdateResult.ok.injEq] at h
      obtain ⟨hout, hst⟩ := h
      refine ⟨pre, e0, post, hl, he0, ?_, ?_, hout.symm, rfl, rfl, ?_, ?_, ?_, ?_, ?_⟩
      · rw [← hst]
      · rw [← hst]
      · intro hn; simp [applyUpdate, _prepare_updates, hn]
      · intro hn; simp [applyUpdate, _prepare_updates, hn]
      · intro hn; simp [applyUpdate, _prepare_updates, hn]
      · intro hn; simp [applyUpdate, _prepare_updates, hn]
      · intro hn; simp [applyUpdate, _prepare_updates, hn]

/-- Witness for C6: updating only `name` on a one-document store. -/
theorem update_frame_preservation_witness :
    ∃ pre e0 post,
      exStoreOne.docs = pre ++ e0 :: post
      ∧ (e0.employee_id == "E1") = true
      ∧ (Store.mk [applyUpdate (_prepare_updates exUpdName) (exEmp 1 "E1" "D" 100 1 ["Go"])] 2).docs
          = pre ++ applyUpdate (_prepare_updates exUpdName) e0 :: post
      ∧ (Store.mk [applyUpdate (_prepare_updates exUpdName) (exEmp 1 "E1" "D" 100 1 ["Go"])] 2).nextOid
          = exStoreOne.nextOid
      ∧ employee_helper (applyUpdate (_prepare_updates exUpdName) (exEmp 1 "E1" "D" 100 1 ["Go"]))
          = employee_helper (applyUpdate (_prepare_updates exUpdName) e0)
      ∧ (applyUpdate (_prepare_updates exUpdName) e0).employee_id = e0.employee_id
      ∧ (applyUpdate (_prepare_updates exUpdName) e0).oid = e0.oid
      ∧ (exUpdName.name = none → (applyUpdate (_prepare_updates exUpdName) e0).name = e0.name)
      ∧ (exUpdName.department = none →
          (applyUpdate (_prepare_updates exUpdName) e0).department = e0.department)
      ∧ (exUpdName.salary = none →
          (applyUpdate (_prepare_updates exUpdName) e0).salary = e0.salary)
      ∧ (exUpdName.joining_date = none →
          (applyUpdate (_prepare_updates exUpdName) e0).joining_date = e0.joining_date)
      ∧ (exUpdName.skills = none →
          (applyUpdate (_prepare_updates exUpdName) e0).skills = e0.skills) :=
  update_frame_preservation exStoreOne "E1" exUpdName
    (employee_helper (applyUpdate (_prepare_updates exUpdName) (exEmp 1 "E1" "D" 100 1 ["Go"])))
    ⟨[applyUpdate (_prepare_updates exUpdName) (exEmp 1 "E1" "D" 100 1 ["Go"])], 2⟩
    (by decide)

/-- C10: an empty-string department filter behaves exactly like an absent
one — Python truthiness makes `if department:` skip both. -/
theorem list_empty_department_means_no_filter :
    ∀ (st : Store) (skip limit : Nat),
      list_employees st (some "") skip limit = list_employees st none skip limit := by
  intro st skip limit
  have hf : deptFilter (some "") = deptFilter none := by
    funext e
    rfl
  simp only [list_employees, hf]

/-! ### Create: fresh insert and duplicate rejection -/

theorem create_employee_spec (st : Store) (p : EmployeeCreate)
    (hwf : StoreWF st)
    (hfresh : st.docs.any (fun e => e.employee_id == p.employee_id) = false) :
    create_employee st p =
      (CreateResult.ok (some (employee_helper (_prepare_doc_for_insert p st.nextOid))),
        ⟨st.docs ++ [_prepare_doc_for_insert p st.nextOid], st.nextOid + 1⟩) := by
  have hpre : List.find? (fun e => e.oid == st.nextOid) st.docs = none :=
    List.find?_eq_none.mpr (fun x hx => by
      have := hwf x hx
      simp only [beq_iff_eq]
      omega)
  have hdoc : ((_prepare_doc_for_insert p st.nextOid).oid == st.nextOid) = true := by
    simp [_prepare_doc_for_insert]
  simp [create_employee, hfresh, hpre, List.find?, hdoc]

/-- C4: creating a fresh `employee_id` succeeds and returns the decoded
record carrying the storage-assigned identifier; an immediately following
create with the same `employee_id` is rejected with `DuplicateKey` and
leaves the store unchanged, whatever the other fields hold. -/
theorem create_duplicate_key_rejected (st : Store) (p q : EmployeeCreate)
    (hwf : StoreWF st)
    (hqp : q.employee_id = p.employee_id)
    (hfresh : st.docs.any (fun e => e.employee_id == p.employee_id) = false) :
    ∃ out st1,
      create_employee st p = (CreateResult.ok (some out), st1)
      ∧ out = employee_helper (_prepare_doc_for_insert p st.nextOid)
      ∧ out.id = toString st.nextOid
      ∧ out.employee_id = p.employee_id
      ∧ st1.docs = st.docs ++ [_prepare_doc_for_insert p st.nextOid]
      ∧ create_employee st1 q = (CreateResult.duplicateKey, st1) := by
  refine ⟨_, _, create_employee_spec st p hwf hfresh, rfl, rfl, rfl, rfl, ?_⟩
  have hdup : (st.docs ++ [_prepare_doc_for_insert p st.nextOid]).any
      (fun e => e.employee_id == q.employee_id) = true := by
    simp [List.any_append, _prepare_doc_for_insert, hqp]
  simp [create_employee, hdup]

/-- Witness for C4: two creates with business key `E1` into the empty
store. -/
theorem create_duplicate_key_rejected_witness :
    ∃ out st1,
      create_employee ⟨[], 0⟩ exPayload = (CreateResult.ok (some out), st1)
      ∧ out = employee_helper (_prepare_doc_for_insert exPayload 0)
      ∧ out.id = toString 0
      ∧ out.employee_id = exPayload.employee_id
      ∧ st1.docs = [] ++ [_prepare_doc_for_insert exPayload 0]
      ∧ create_employee st1 exPayload2 = (CreateResult.duplicateKey, st1) :=
  create_duplicate_key_rejected ⟨[], 0⟩ exPayload exPayload2
    (fun e he => absurd he (List.not_mem_nil e)) rfl rfl

/-- C7: listing filters by the department (when truthy), returns records
drawn from the store in descending `joining_date` order, and returns at
most `limit` of them after dropping `skip`; over three records with
distinct joining dates, `skip=1, limit=1` returns exactly the
second-most-recent record. -/
theorem list_pagination_order :
    (∀ (st : Store) (dep : Option String) (skip limit : Nat), 1 ≤ limit →
      ∃ ds, list_employees st dep skip limit = ds.map employee_helper
        ∧ List.Sorted jdGE ds
        ∧ (∀ e ∈ ds, e ∈ st.docs ∧ deptFilter dep e = true)
        ∧ ds.length ≤ limit)
    ∧ list_employees exStorePag none 1 1 = [employee_helper (exEmp 3 "E3" "D" 100 2 [])] := by
  constructor
  · intro st dep skip limit hlim
    have hsub : List.Sublist (paginate skip limit (sortDocs (st.docs.filter (deptFilter dep))))
        (sortDocs (st.docs.filter (deptFilter dep))) := by
      unfold paginate applyLimit
      split
      · exact List.drop_sublist _ _
      · exact (List.take_sublist _ _).trans (List.drop_sublist _ _)
    refine ⟨paginate skip limit (sortDocs (st.docs.filter (deptFilter dep))), rfl,
      ?_, ?_, ?_⟩
    · exact List.Pairwise.sublist hsub (List.sorted_insertionSort jdGE _)
    · intro e he
      have h1 : e ∈ sortDocs (st.docs.filter (deptFilter dep)) := hsub.subset he
      have h2 : e ∈ st.docs.filter (deptFilter dep) :=
        (List.perm_insertionSort jdGE _).subset h1
      exact ⟨(List.mem_filter.mp h2).1, (List.mem_filter.mp h2).2⟩
    · unfold paginate applyLimit
      split
      · omega
      · simp [List.length_take]
  · decide

/-- Witness for C7: `skip=1, limit=1` over the three-record store. -/
theorem list_pagination_order_witness :
    ∃ ds, list_employees exStorePag none 1 1 = ds.map employee_helper
      ∧ List.Sorted jdGE ds
      ∧ (∀ e ∈ ds, e ∈ exStorePag.docs ∧ deptFilter none e = true)
      ∧ ds.length ≤ 1 :=
  list_pagination_order.1 exStorePag none 1 1 (by decide)

/-! ### Aggregation: average salary by department -/

theorem avg_salary_result_shape (st : Store) :
    (average_salary_by_department st).map (fun o => o.department) =
      List.insertionSort strLE ((st.docs.map (fun e => e.department)).dedup) := by
  unfold average_salary_by_department
  rw [List.map_map]
  exact List.map_id _

/-- C5: the aggregation groups exactly the departments present in the
store, reports for each the half-even-rounded arithmetic mean of its
salaries, and lists the pairs in ascending department order; on the store
`{A:100, A:200, B:300}` it returns `[{A,150},{B,300}]`. -/
theorem avg_salary_by_department_spec :
    (∀ st : Store,
      List.Sorted (fun a b : AvgOut => strLE a.department b.department)
        (average_salary_by_department st)
      ∧ ((average_salary_by_department st).map (fun o => o.department)).Nodup
      ∧ (∀ dep, (∃ o ∈ average_salary_by_department st, o.department = dep) ↔
          ∃ e ∈ st.docs, e.department = dep)
      ∧ (∀ o ∈ average_salary_by_department st,
          o.avg_salary = roundHalfEven (ratAvg (deptSalaries st o.department))))
    ∧ average_salary_by_department exStoreAgg = [⟨"A", 150⟩, ⟨"B", 300⟩] := by
  constructor
  · intro st
    refine ⟨?_, ?_, ?_, ?_⟩
    · unfold average_salary_by_department
      exact (List.pairwise_map).mpr (List.sorted_insertionSort strLE _)
    · rw [avg_salary_result_shape]
      exact ((List.perm_insertionSort strLE _).nodup_iff).mpr (List.nodup_dedup _)
    · intro dep
      have hmem : dep ∈ (average_salary_by_department st).map (fun o => o.department) ↔
          ∃ e ∈ st.docs, e.department = dep := by
        rw [avg_salary_result_shape]
        rw [(List.perm_insertionSort strLE _).mem_iff, List.mem_dedup, List.mem_map]
      constructor
      · intro ⟨o, ho, hod⟩
        exact hmem.mp (List.mem_map.mpr ⟨o, ho, hod⟩)
      · intro he
        obtain ⟨o, ho, hod⟩ := List.mem_map.mp (hmem.mpr he)
        exact ⟨o, ho, hod⟩
    · intro o ho
      unfold average_salary_by_department at ho
      obtain ⟨dep, _, rfl⟩ := List.mem_map.mp ho
      rfl
  · have hdeps : List.insertionSort strLE ((exStoreAgg.docs.map (fun e => e.department)).dedup)
        = ["A", "B"] := by decide
    have hsalA : deptSalaries exStoreAgg "A" = [100, 200] := by decide
    have hsalB : deptSalaries exStoreAgg "B" = [300] := by decide
    have havgA : ratAvg [(100 : Rat), 200] = 150 := by
      norm_num [ratAvg]
    have havgB : ratAvg [(300 : Rat)] = 300 := by
      norm_num [ratAvg]
    have hfA : ratFloor 150 = 150 := by
      have h1 : (150 : Rat).num = 150 := by norm_num
      have h2 : (150 : Rat).den = 1 := by norm_num
      rw [ratFloor, h1, h2]
      decide
    have hfB : ratFloor 300 = 300 := by
      have h1 : (300 : Rat).num = 300 := by norm_num
      have h2 : (300 : Rat).den = 1 := by norm_num
      rw [ratFloor, h1, h2]
      decide
    have hrA : roundHalfEven 150 = 150 := by
      rw [roundHalfEven, hfA]
      norm_num
    have hrB : roundHalfEven 300 = 300 := by
      rw [roundHalfEven, hfB]
      norm_num
    unfold average_salary_by_department
    rw [hdeps]
    simp only [List.map_cons, List.map_nil, hsalA, hsalB, havgA, havgB, hrA, hrB]

/-! ### The case-insensitive regex on metacharacter-free skills -/

theorem quant_false {c : Char} (h : isMeta c = false) :
    (c == '*' || c == '+' || c == '?') = false := by
  cases h1 : c == '*' with
  | true => rw [eq_of_beq h1] at h; exact absurd h (by decide)
  | false =>
    cases h2 : c == '+' with
    | true => rw [eq_of_beq h2] at h; exact absurd h (by decide)
    | false =>
      cases h3 : c == '?' with
      | true => rw [eq_of_beq h3] at h; exact absurd h (by decide)
      | false => simp [h1, h2, h3]

theorem atomOf_plain {c : Char} (h : isMeta c = false) : atomOf c = some (RAtom.lit c) := by
  have hdot : (c == '.') = false := by
    cases hd : c == '.' with
    | true => rw [eq_of_beq hd] at h; exact absurd h (by decide)
    | false => rfl
  simp [atomOf, hdot, h]

theorem compileRev_plain : ∀ cs : List Char, (∀ c ∈ cs, isMeta c = false) →
    compileRev cs = some (cs.map (fun c => RPiece.once (RAtom.lit c)))
  | [], _ => rfl
  | c :: cs, h => by
    have hc := h c (List.mem_cons_self _ _)
    have hrec := compileRev_plain cs (fun x hx => h x (List.mem_cons_of_mem _ hx))
    rw [compileRev.eq_def]
    simp [quant_false hc, atomOf_plain hc, hrec]

theorem compileSkill_plain (s : List Char) (h : ∀ c ∈ s, isMeta c = false) :
    compileSkill s = some (s.map (fun c => RPiece.once (RAtom.lit c))) := by
  unfold compileSkill
  rw [compileRev_plain s.reverse (fun c hc => h c (List.mem_reverse.mp hc))]
  simp [List.map_reverse]

theorem piecesMatch_literals (cs : List Char) : ∀ xs : List Char,
    (piecesMatch (cs.map (fun c => RPiece.once (RAtom.lit c))) xs = true ↔
      xs.map Char.toLower = cs.map Char.toLower) := by
  induction cs with
  | nil => intro xs; cases xs <;> simp [piecesMatch]
  | cons c cs ih =>
    intro xs
    cases xs with
    | nil => simp [piecesMatch]
    | cons x xs =>
      simp [piecesMatch, atomMatch, ih xs, List.cons.injEq, Bool.and_eq_true, beq_iff_eq]
      exact fun _ => eq_comm

theorem anchoredCIMatch_literals (skill elem : String) :
    anchoredCIMatch (skill.data.map (fun c => RPiece.once (RAtom.lit c))) elem.data =
      ciWholeMatchNL skill elem := by
  have e1 : ∀ xs : List Char,
      piecesMatch (skill.data.map (fun c => RPiece.once (RAtom.lit c))) xs =
        (xs.map Char.toLower == skill.data.map Char.toLower) := by
    intro xs
    rw [Bool.eq_iff_iff]
    simp [piecesMatch_literals]
  unfold anchoredCIMatch ciWholeMatchNL ciWholeMatch
  rw [e1, e1]

/-- C3 counterexample: with `caseInsensitive=true` and the skill string
`a+`, the interpolated pattern `^a+$` matches the element `aa`, so the
document is returned even though none of its skills is equal to `a+` up
to case — the claim's "exactly the documents whose skills contain an
element equal to s up to case" fails for skills containing regex
metacharacters. -/
theorem search_by_skill_ci_regex_counterexample :
    search_employees_by_skill exStoreRegex "a+" 0 100 true =
      some [employee_helper (exEmp 1 "E1" "D" 100 1 ["aa"])]
    ∧ (exEmp 1 "E1" "D" 100 1 ["aa"]).skills.any (fun s => ciWholeMatch "a+" s) = false := by
  constructor
  · decide
  · decide

/-- C3 (amended): for skills free of regex metacharacters, the
case-insensitive search returns exactly the documents with a skill equal
to the query up to ASCII case — or equal up to case after dropping one
element-final newline (PCRE `$`) — sorted and paginated as usual; the
case-sensitive search returns exactly the whole-element string-equal
containment matches; no matches yields the empty sequence, not an
error. -/
theorem search_by_skill_characterization :
    ∀ (st : Store) (skill : String) (skip limit : Nat),
      (∀ c ∈ skill.data, isMeta c = false) →
      search_employees_by_skill st skill skip limit true =
        some ((paginate skip limit (sortDocs (st.docs.filter
          (fun e => e.skills.any (fun s => ciWholeMatchNL skill s))))).map employee_helper)
      ∧ search_employees_by_skill st skill skip limit false =
        some ((paginate skip limit (sortDocs (st.docs.filter
          (fun e => e.skills.contains skill)))).map employee_helper)
      ∧ ((∀ e ∈ st.docs, e.skills.any (fun s => ciWholeMatchNL skill s) = false) →
          search_employees_by_skill st skill skip limit true = some []) := by
  intro st skill skip limit h
  have hcomp := compileSkill_plain skill.data h
  have hfilter : (fun e : StoredEmployee => e.skills.any
      (fun s => anchoredCIMatch (skill.data.map (fun c => RPiece.once (RAtom.lit c))) s.data)) =
      (fun e => e.skills.any (fun s => ciWholeMatchNL skill s)) := by
    funext e
    congr 1
    funext s
    exact anchoredCIMatch_literals skill s
  have hci : search_employees_by_skill st skill skip limit true =
      some ((paginate skip limit (sortDocs (st.docs.filter
        (fun e => e.skills.any (fun s => ciWholeMatchNL skill s))))).map employee_helper) := by
    simp only [search_employees_by_skill, if_true, hcomp, hfilter]
  refine ⟨hci, rfl, ?_⟩
  intro hnone
  have hempty : st.docs.filter (fun e => e.skills.any (fun s => ciWholeMatchNL skill s)) = [] :=
    List.filter_eq_nil_iff.mpr (fun e he => by simp [hnone e he])
  rw [hci, hempty]
  simp [sortDocs, paginate, applyLimit]

/-- Witness for the amended C3: the metacharacter-free skill `Go` on a
store whose only document holds the exact-case skill `Go`. -/
theorem search_by_skill_characterization_witness :
    search_employees_by_skill exStoreOne "Go" 0 100 true =
      some ((paginate 0 100 (sortDocs (exStoreOne.docs.filter
        (fun e => e.skills.any (fun s => ciWholeMatchNL "Go" s))))).map employee_helper)
    ∧ search_employees_by_skill exStoreOne "Go" 0 100 false =
      some ((paginate 0 100 (sortDocs (exStoreOne.docs.filter
        (fun e => e.skills.contains "Go")))).map employee_helper)
    ∧ ((∀ e ∈ exStoreOne.docs, e.skills.any (fun s => ciWholeMatchNL "Go" s) = false) →
        search_employees_by_skill exStoreOne "Go" 0 100 true = some []) :=
  search_by_skill_characterization exStoreOne "Go" 0 100 (by decide)

/-- Witness for C5: the concrete `{A:100, A:200, B:300}` aggregation. -/
theorem avg_salary_by_department_spec_witness :
    average_salary_by_department exStoreAgg = [⟨"A", 150⟩, ⟨"B", 300⟩] :=
  avg_salary_by_department_spec.2
